import Mathlib

/-!
Verification of the extraction layer of `hackernews-api-rs`
(`src/parse.rs`, `src/types.rs`), shallowly embedded in Lean.

Strings are modelled as lists of characters (`Str`); Rust `&str`/`String`
values are UTF-8 character sequences, so a `List Char` carries the same
information.  HTML documents are modelled as a node tree (`Node`), and
`scraper`'s CSS-selector queries are modelled by explicit pre-order
traversals specialised to the selectors the source uses.
-/

abbrev Str := List Char

def str (s : String) : Str := s.toList

/-- Rust `char::is_whitespace`, restricted to the ASCII whitespace
characters that occur in the documents being modelled. -/
def isWsChar (c : Char) : Bool := c = ' ' || c = '\t' || c = '\n' || c = '\r'

/-- Rust `str::trim` (leading part): drop leading whitespace. -/
def trimLeft (l : Str) : Str := l.dropWhile isWsChar

/-- Rust `str::trim` (trailing part): drop trailing whitespace. -/
def trimRight (l : Str) : Str := (l.reverse.dropWhile isWsChar).reverse

/-- Rust `str::trim`: drop leading and trailing whitespace. -/
def trim (l : Str) : Str := trimRight (trimLeft l)

/-- `beginsWith pat hay` holds when `pat` is an initial segment of `hay`. -/
def beginsWith : Str → Str → Bool
  | [], _ => true
  | _ :: _, [] => false
  | c :: ps, d :: hs => decide (c = d) && beginsWith ps hs

/-- Rust `str::contains` on string patterns. -/
def containsSub : Str → Str → Bool
  | [], pat => beginsWith pat []
  | c :: t, pat => beginsWith pat (c :: t) || containsSub t pat

/-- Rust `str::ends_with`. -/
def endsWith (hay pat : Str) : Bool := beginsWith pat.reverse hay.reverse

/-- Split on whitespace (used for CSS class-attribute matching). -/
def splitWsGo : Str → Str → List Str
  | [], cur => [cur.reverse]
  | c :: rest, cur =>
    if isWsChar c then cur.reverse :: splitWsGo rest []
    else splitWsGo rest (c :: cur)

def splitWs (l : Str) : List Str := splitWsGo l []

/-- Rust `u64::from_str` / `u32::from_str` without the range check:
an optional leading `+` followed by at least one ASCII digit. -/
def parseNatCore (l : Str) : Option Nat :=
  let body := if l.head? = some '+' then l.tail else l
  if body ≠ [] ∧ body.all Char.isDigit then
    some (body.foldl (fun a c => a * 10 + (c.toNat - 48)) 0)
  else none

/-- Rust `str::parse::<u32>` returning `none` on malformed input or
values exceeding `u32::MAX` (Rust reports overflow as a parse error). -/
def parseU32 (l : Str) : Option Nat :=
  (parseNatCore l).bind (fun n => if n < 4294967296 then some n else none)

/-- Rust `str::parse::<u64>` returning `none` on malformed input or
values exceeding `u64::MAX`. -/
def parseU64 (l : Str) : Option Nat :=
  (parseNatCore l).bind (fun n => if n < 18446744073709551616 then some n else none)

/-- A node of the parsed HTML document (`scraper::Html` tree):
either a text node or an element with a tag, attributes and children. -/
inductive Node where
  | text (s : Str) : Node
  | elem (tag : Str) (attrs : List (Str × Str)) (children : List Node) : Node

def Node.attr : Node → Str → Option Str
  | .text _, _ => none
  | .elem _ attrs _, name => (attrs.find? (fun p => decide (p.1 = name))).map (·.2)

/-- `el.value().attr(name).unwrap_or(d)`. -/
def Node.attrD (n : Node) (name d : Str) : Str := (n.attr name).getD d

def Node.childNodes : Node → List Node
  | .text _ => []
  | .elem _ _ cs => cs

def Node.tag : Node → Str
  | .text _ => []
  | .elem t _ _ => t

def Node.isElem : Node → Bool
  | .text _ => false
  | .elem _ _ _ => true

/-- CSS class matching: the `class` attribute split on whitespace
contains the class. -/
def hasClass (n : Node) (c : Str) : Bool := (splitWs (n.attrD (str "class") [])).contains c

mutual

/--
`scraper`'s `select` for the selectors used by the source: a pre-order
traversal collecting the elements satisfying `req`.  The flag `u` records
whether the ancestor requirement `anc` of a descendant combinator is
already satisfied on the path from the search root (for simple selectors
it is `true` throughout).
-/
def selNode (req anc : Node → Bool) (u : Bool) : Node → List Node
  | .text _ => []
  | .elem t a cs =>
    (if u && req (.elem t a cs) then [Node.elem t a cs] else [])
      ++ selList req anc (u || anc (.elem t a cs)) cs

def selList (req anc : Node → Bool) (u : Bool) : List Node → List Node
  | [] => []
  | n :: rest => selNode req anc u n ++ selList req anc u rest

end

/-- `el.select(&sel(<simple selector>))`: matching proper descendants of
`el` in document order. -/
def select (n : Node) (req : Node → Bool) : List Node :=
  selList req (fun _ => false) true n.childNodes

/-- `el.select` for a descendant-combinator selector `anc req` (e.g.
`.ind img`): descendants satisfying `req` below an element satisfying
`anc`; the search root itself counts as a possible ancestor. -/
def selectDesc (n : Node) (anc req : Node → Bool) : List Node :=
  selList req anc (anc n) n.childNodes

mutual

/-- Descendant text nodes of a node, in document order
(`ElementRef::text()`). -/
def textsNode : Node → List Str
  | .text s => [s]
  | .elem _ _ cs => textsList cs

def textsList : List Node → List Str
  | [] => []
  | n :: rest => textsNode n ++ textsList rest

end

/-- The fold step of `el_text`: `let clean = t.trim(); if !clean.is_empty()
{ s.push(' '); s.push_str(&clean); }`. -/
def elTextStep (s t : Str) : Str :=
  let clean := trim t
  if clean = [] then s else s ++ ' ' :: clean

/-- `el_text` from `src/parse.rs`: fold the descendant text nodes,
pushing a space and the trimmed segment for each nonempty trimmed
segment, then trim the result. -/
def el_text (el : Node) : Str :=
  trim ((textsList el.childNodes).foldl elTextStep [])

/-- `el_text_opt` from `src/parse.rs`. -/
def el_text_opt (el : Node) : Option Str :=
  let txt := el_text el
  if txt = [] then none else some txt

def htmlAttrs (attrs : List (Str × Str)) : Str :=
  attrs.foldl (fun s p => s ++ ' ' :: (p.1 ++ '=' :: '"' :: p.2 ++ ['"'])) []

mutual

/-- `ElementRef::html()`: outer-HTML serialization of an element
(modelled without entity escaping, which the claims do not depend on). -/
def htmlNode : Node → Str
  | .text s => s
  | .elem t a cs =>
    '<' :: (t ++ htmlAttrs a) ++ '>' :: (htmlList cs ++ '<' :: '/' :: (t ++ ['>']))

def htmlList : List Node → Str
  | [] => []
  | n :: rest => htmlNode n ++ htmlList rest

end

/-- `VoteAction` from `src/types.rs`. -/
inductive VoteAction where
  | Upvote (url : Str)
  | Downvote (url : Str)
deriving DecidableEq

/-- `VoteAction::is_upvote` from `src/types.rs`. -/
def VoteAction.is_upvote : VoteAction → Bool
  | .Upvote _ => true
  | .Downvote _ => false

/-- `Comment` from `src/types.rs` (recursive via `children`). -/
inductive Comment where
  | mk (id : Str) (depth : Nat) (age : Str) (username : Str) (content_html : Str)
      (children : List Comment) (upvote : Option VoteAction)
      (downvote : Option VoteAction) : Comment

def Comment.id : Comment → Str
  | .mk i _ _ _ _ _ _ _ => i

def Comment.depth : Comment → Nat
  | .mk _ d _ _ _ _ _ _ => d

def Comment.age : Comment → Str
  | .mk _ _ a _ _ _ _ _ => a

def Comment.username : Comment → Str
  | .mk _ _ _ u _ _ _ _ => u

def Comment.content_html : Comment → Str
  | .mk _ _ _ _ c _ _ _ => c

def Comment.children : Comment → List Comment
  | .mk _ _ _ _ _ cs _ _ => cs

def Comment.upvote : Comment → Option VoteAction
  | .mk _ _ _ _ _ _ u _ => u

def Comment.downvote : Comment → Option VoteAction
  | .mk _ _ _ _ _ _ _ d => d

/-- `Post` from `src/types.rs`.  The `u64` counters are represented by
`Nat`; the parsing functions below only ever produce values below
`2 ^ 64`, mirroring Rust's range-checked `parse`. -/
structure Post where
  id : Str
  title : Str
  url : Str
  username : Str
  score : Nat
  comment_count : Nat
  comments : List Comment
  vote : Option VoteAction

/-- `ParseError` from `src/parse.rs`. -/
structure ParseError where
  message : Str
deriving DecidableEq

def ParseError.new (m : Str) : ParseError := ⟨m⟩

/-- Rust `Option::ok_or_else`. -/
def okOr (o : Option α) (e : ParseError) : Except ParseError α :=
  match o with
  | some a => .ok a
  | none => .error e

def byClass (c : Str) : Node → Bool := fun n => hasClass n c

def byTag (t : Str) : Node → Bool := fun n => decide (n.tag = t)

/-- `el.select(&sel("a"))`. -/
def selA (el : Node) : List Node := select el (byTag (str "a"))

/-- `parse_username` from `src/parse.rs`. -/
def parse_username (el : Node) : Except ParseError Str :=
  okOr ((select el (byClass (str "hnuser"))).head?.bind el_text_opt)
    (ParseError.new (str "Could not find username"))

/-- `parse_storylink` from `src/parse.rs`. -/
def parse_storylink (el : Node) : Except ParseError (Str × Str) :=
  match (select el (byClass (str "storylink"))).head? with
  | none => .error (ParseError.new (str "Could not find story link"))
  | some storylink =>
    match storylink.attr (str "href") with
    | none => .error (ParseError.new (str "Story link has no href"))
    | some url =>
      match el_text_opt storylink with
      | none => .error (ParseError.new (str "Could not find title"))
      | some title => .ok (title, url)

/-- `parse_score` from `src/parse.rs`: first `.score` element, take the
text before the first space (`split(' ').next()`), parse as `u64`. -/
def parse_score (el : Node) : Except ParseError Nat :=
  okOr ((select el (byClass (str "score"))).head?.bind
      (fun e => parseU64 ((el_text e).takeWhile (fun c => !decide (c = ' ')))))
    (ParseError.new (str "Could not find score"))

/-- The anchor texts `parse_comment_count` keeps: text of each `a`
descendant that ends with "comments" or equals "discuss". -/
def commentCountTexts (el : Node) : List Str :=
  ((selA el).map el_text).filter
    (fun txt => endsWith txt (str "comments") || decide (txt = str "discuss"))

/-- `parse_comment_count` from `src/parse.rs`.  The Rust parse-failure
message also appends the integer-parse error's rendering; the model keeps
the fixed prefix only. -/
def parse_comment_count (el : Node) : Except ParseError Nat :=
  match (commentCountTexts el).getLast? with
  | none => .error (ParseError.new (str "Could not find comment count"))
  | some text =>
    if text = str "discuss" then .ok 0
    else
      match parseU64 (text.filter Char.isDigit) with
      | some n => .ok n
      | none => .error (ParseError.new (str "Could not parse comment count"))

/-- `parse_upvote` from `src/parse.rs`: find the first anchor whose href
contains "how=up", keep it only if its class attribute does not contain
"nosee" (`find(..).filter(..)?`), and return its href as an upvote
action.  The Rust `attr("href").unwrap()` cannot panic here because the
`find` predicate required the href to be present; the model reads the
attribute with default `""`. -/
def upHref (a : Node) : Bool := containsSub (a.attrD (str "href") []) (str "how=up")

def downHref (a : Node) : Bool := containsSub (a.attrD (str "href") []) (str "how=un")

def noseeClass (a : Node) : Bool := containsSub (a.attrD (str "class") []) (str "nosee")

def parse_upvote (el : Node) : Option VoteAction :=
  match (selA el).find? upHref with
  | none => none
  | some a =>
    if noseeClass a then none
    else some (VoteAction.Upvote (a.attrD (str "href") []))

/-- `parse_downvote` from `src/parse.rs`. -/
def parse_downvote (el : Node) : Option VoteAction :=
  match (selA el).find? downHref with
  | none => none
  | some a => some (VoteAction.Downvote (a.attrD (str "href") []))

/-- `let vote = upvote.or(downvote)` as computed in `parse_list` (upvote
searched on the listing row, downvote on the action row) and in
`parse_submission` (both searched on the header element). -/
def post_vote (up_scope down_scope : Node) : Option VoteAction :=
  (parse_upvote up_scope).or (parse_downvote down_scope)

/-- Rust `ElementRef::wrap`: only element nodes wrap to an element. -/
def wrapElem (n : Node) : Option Node :=
  if n.isElem then some n else none

mutual

/-- The `.athing` elements of the document in document order, each paired
with its following sibling node (`row_ref.next_sibling()`), which the
tree model recovers during the traversal. -/
def athingInNode : Node → List (Node × Option Node)
  | .text _ => []
  | .elem _ _ cs => athingInList cs

def athingInList : List Node → List (Node × Option Node)
  | [] => []
  | n :: rest =>
    (match n with
     | .text _ => []
     | .elem t a cs =>
       if hasClass (.elem t a cs) (str "athing")
       then [(Node.elem t a cs, rest.head?)] else [])
      ++ athingInNode n ++ athingInList rest

end

def athingRows (doc : Node) : List (Node × Option Node) := athingInList doc.childNodes

/-- Rust `Iterator::collect::<Result<Vec<_>, _>>`: stop at the first
error, otherwise collect all results in order. -/
def collectResults (f : α → Except ParseError β) : List α → Except ParseError (List β)
  | [] => .ok []
  | x :: rest =>
    match f x with
    | .error e => .error e
    | .ok b =>
      match collectResults f rest with
      | .error e => .error e
      | .ok bs => .ok (b :: bs)

/-- `parse_list` from `src/parse.rs`. -/
def parse_list (doc : Node) : Except ParseError (List Post) :=
  collectResults
    (fun rs =>
      match rs.1.attr (str "id") with
      | none => .error (ParseError.new (str "Could not get id for submission"))
      | some id =>
        match parse_storylink rs.1 with
        | .error e => .error e
        | .ok (title, url) =>
          match okOr (rs.2.bind wrapElem)
              (ParseError.new (str "Could not find action row")) with
          | .error e => .error e
          | .ok action_row =>
            let vote := post_vote rs.1 action_row
            let comment_count := (parse_comment_count action_row).toOption.getD 0
            let score := (parse_score action_row).toOption.getD 0
            let username := (parse_username action_row).toOption.getD (str "<unknown>")
            .ok { id, title, username, url, score, comment_count,
                  comments := [], vote })
    (athingRows doc)

/-- The depth extraction step of `parse_comment`: first `.ind img`
descendant, its `width` attribute, parsed as `u32`, divided by 40. -/
def comment_depth (el : Node) : Option Nat :=
  (((selectDesc el (byClass (str "ind")) (byTag (str "img"))).head?).bind
      (fun e => e.attr (str "width"))).bind
    (fun w => (parseU32 w).map (fun n => n / 40))

/-- The age extraction step of `parse_comment`. -/
def comment_age (el : Node) : Option Str :=
  (select el (byClass (str "age"))).head?.bind el_text_opt

/-- The body extraction step of `parse_comment`: outer HTML of the first
`.comment` descendant. -/
def comment_content (el : Node) : Option Str :=
  ((select el (byClass (str "comment"))).head?).map htmlNode

/-- The vote-link scan of `parse_comment`: iterate the anchors of the
first `.votelinks` descendant, later matches overwriting earlier ones. -/
def comment_votes (el : Node) : Option VoteAction × Option VoteAction :=
  match (select el (byClass (str "votelinks"))).head? with
  | none => (none, none)
  | some vl =>
    (selA vl).foldl
      (fun p link =>
        match link.attr (str "href") with
        | none => p
        | some href =>
          if containsSub href (str "how=up") then (some (VoteAction.Upvote href), p.2)
          else if containsSub href (str "how=un") then (p.1, some (VoteAction.Downvote href))
          else p)
      (none, none)

/-- `parse_comment` from `src/parse.rs`; the `?`-propagation of the Rust
source is the explicit error match chain. -/
def parse_comment (el : Node) : Except ParseError Comment :=
  match parse_username el with
  | .error e => .error e
  | .ok username =>
    match el.attr (str "id") with
    | none => .error (ParseError.new (str "Could not determine comment id"))
    | some id =>
      match comment_depth el with
      | none => .error (ParseError.new (str "Could not determine comment depth"))
      | some depth =>
        match comment_age el with
        | none => .error (ParseError.new (str "Could not find comment age"))
        | some age =>
          match comment_content el with
          | none => .error (ParseError.new (str "Could not find comment text"))
          | some content_html =>
            let ud := comment_votes el
            .ok (Comment.mk id depth age username content_html [] ud.1 ud.2)

/-- The comment elements of a submission page:
`dom.select(".comment-tree .athing.comtr")`. -/
def commentElems (dom : Node) : List Node :=
  selectDesc dom (byClass (str "comment-tree"))
    (fun n => hasClass n (str "athing") && hasClass n (str "comtr"))

/-- `parse_submission` from `src/parse.rs`. -/
def parse_submission (id : Str) (dom : Node) : Except ParseError Post :=
  match (select dom (byClass (str "fatitem"))).head? with
  | none => .error (ParseError.new (str "Could not find post header"))
  | some header =>
    match parse_storylink header with
    | .error e => .error e
    | .ok (title, url) =>
      match parse_username header with
      | .error e => .error e
      | .ok username =>
        match parse_score header with
        | .error e => .error e
        | .ok score =>
          let vote := post_vote header header
          match parse_comment_count header with
          | .error e => .error e
          | .ok comment_count =>
            match collectResults parse_comment (commentElems dom) with
            | .error e => .error e
            | .ok comments =>
              .ok { id, title, url, username, score, comment_count, comments, vote }

/-! ### Concrete example documents -/

/-- A well-formed submission-page header element (`.fatitem`). -/
def exHeader : Node :=
  Node.elem (str "tr") [(str "class", str "fatitem")]
    [Node.elem (str "a")
       [(str "class", str "storylink"), (str "href", str "http://example.com")]
       [Node.text (str "Example")],
     Node.elem (str "span") [(str "class", str "score")]
       [Node.text (str "150 points")],
     Node.elem (str "a") [(str "class", str "hnuser")]
       [Node.text (str "alice")],
     Node.elem (str "a") [(str "href", str "item?id=123")]
       [Node.text (str "3 comments")]]

/-- A submission page with a well-formed header and no comments. -/
def exSubDoc : Node := Node.elem (str "html") [] [exHeader]

/-- The post that `parse_submission "123" exSubDoc` produces. -/
def exSubPost : Post :=
  { id := str "123", title := str "Example", url := str "http://example.com",
    username := str "alice", score := 150, comment_count := 3,
    comments := [], vote := none }


/-- A comment element (`.athing.comtr`) whose indentation image has the
given `width` attribute and whose other mandatory fields are well
formed. -/
def widthComment (idS w : Str) : Node :=
  Node.elem (str "tr") [(str "class", str "athing comtr"), (str "id", idS)]
    [Node.elem (str "td") [(str "class", str "ind")]
       [Node.elem (str "img") [(str "width", w)] []],
     Node.elem (str "a") [(str "class", str "hnuser")]
       [Node.text (str "bob")],
     Node.elem (str "span") [(str "class", str "age")]
       [Node.text (str "2 hours ago")],
     Node.elem (str "div") [(str "class", str "comment")]
       [Node.text (str "hi")]]

/-- A submission page whose comment tree holds two comments at
indentation widths 0 and 40, i.e. at depths 0 and 1. -/
def exDepthsDoc : Node :=
  Node.elem (str "html") []
    [exHeader,
     Node.elem (str "table") [(str "class", str "comment-tree")]
       [widthComment (str "c1") (str "0"),
        widthComment (str "c2") (str "40")]]

/-- `exSubDoc` with the header's username link removed. -/
def exDocNoUser : Node :=
  Node.elem (str "html") []
    [Node.elem (str "tr") [(str "class", str "fatitem")]
      [Node.elem (str "a")
         [(str "class", str "storylink"), (str "href", str "http://example.com")]
         [Node.text (str "Example")],
       Node.elem (str "span") [(str "class", str "score")]
         [Node.text (str "150 points")],
       Node.elem (str "a") [(str "href", str "item?id=123")]
         [Node.text (str "3 comments")]]]

/-- A scope whose first upvote-marker anchor is hidden (`nosee`) while a
second visible upvote-marker anchor follows. -/
def exHiddenFirst : Node :=
  Node.elem (str "td") []
    [Node.elem (str "a")
       [(str "href", str "vote?id=1&how=up"), (str "class", str "nosee")] [],
     Node.elem (str "a") [(str "href", str "vote?id=2&how=up")] []]

/-- A scope with one visible upvote anchor and one downvote anchor. -/
def exBothVotes : Node :=
  Node.elem (str "td") []
    [Node.elem (str "a") [(str "href", str "vote?id=3&how=up")] [],
     Node.elem (str "a") [(str "href", str "vote?id=3&how=un")] []]

/-- A scope with a single visible upvote anchor. -/
def exUpOnly : Node :=
  Node.elem (str "td") []
    [Node.elem (str "a") [(str "href", str "vote?id=4&how=up")] []]

/-- An action row whose only matching comment-count anchor says
"discuss". -/
def exDiscussRow : Node :=
  Node.elem (str "td") []
    [Node.elem (str "a") [(str "href", str "item?id=9")]
       [Node.text (str "discuss")]]

/-- An action row whose matching comment-count anchor says
"42 comments". -/
def exCountRow : Node :=
  Node.elem (str "td") []
    [Node.elem (str "a") [(str "href", str "item?id=9")]
       [Node.text (str "42 comments")]]

/-- An element with a single text node containing an internal run of two
spaces. -/
def exInnerWs : Node :=
  Node.elem (str "span") [] [Node.text (str "a  b")]


/-! ### Spec-side definitions (used to state claims against the code) -/

/-- Claim C3's search condition: some anchor in scope has an
upvote-marker href and does not carry the hidden class. -/
def visibleUpvoteAnchor (el : Node) : Bool :=
  (selA el).any (fun a => upHref a && !noseeClass a)

/-- Join strings with single spaces (the normalization claimed for
`el_text`, per segment). -/
def intercalateSp : List Str → Str
  | [] => []
  | [s] => s
  | s :: s2 :: r => s ++ ' ' :: intercalateSp (s2 :: r)

/-- Prefix each string with a space and concatenate (the shape of the
`el_text` fold accumulator before the final trim). -/
def spaceFlat : List Str → Str
  | [] => []
  | x :: r => ' ' :: x ++ spaceFlat r

/-- The nonempty trimmed text segments of an element, in order. -/
def trimmedSegs (el : Node) : List Str :=
  ((textsList el.childNodes).map trim).filter (fun s => decide (s ≠ []))

/-- The decimal digit character of `d` (for `d < 10`). -/
def decDigit (d : Nat) : Char := Char.ofNat (48 + d)

/-- Canonical decimal rendering of a natural number. -/
def toDec (n : Nat) : Str :=
  if _h : n < 10 then [decDigit n]
  else toDec (n / 10) ++ [decDigit (n % 10)]
decreasing_by exact Nat.div_lt_self (by omega) (by omega)

/-- A comment element missing its username link (all other mandatory
fields well formed). -/
def exNoUserComment : Node :=
  Node.elem (str "tr") [(str "class", str "athing comtr"), (str "id", str "c9")]
    [Node.elem (str "td") [(str "class", str "ind")]
       [Node.elem (str "img") [(str "width", str "0")] []],
     Node.elem (str "span") [(str "class", str "age")]
       [Node.text (str "2 hours ago")],
     Node.elem (str "div") [(str "class", str "comment")]
       [Node.text (str "hi")]]

/-- A submission page whose only comment is missing its username. -/
def exBadCommentDoc : Node :=
  Node.elem (str "html") []
    [exHeader,
     Node.elem (str "table") [(str "class", str "comment-tree")]
       [exNoUserComment]]

/-! ### Theorems -/

/-- C8: parsing is deterministic and stateless — the listing parser and
the submission parser are pure functions of the document, so two runs on
the same immutable document yield structurally equal records. -/
theorem parsing_idempotent (doc : Node) (id : Str) :
    parse_list doc = parse_list doc
    ∧ parse_submission id doc = parse_submission id doc :=
  ⟨rfl, rfl⟩

/-- C1 (code-bug evidence): on a submission page whose two comments have
depths 0 and 1, `parse_submission` returns a flat list in which the
depth-1 comment is itself a root with no children — no tree is
reconstructed, contradicting the claimed forest shape (roots of depth 0,
children at parent depth + 1). -/
theorem flat_forest_at_depths01 :
    (parse_submission (str "123") exDepthsDoc).map
      (fun p => p.comments.map (fun c => (c.depth, c.children)))
    = .ok [(0, []), (1, [])] := rfl

/-- C9: whenever the submission parser succeeds, the returned post's
`id` is exactly the id argument passed by the caller; it is never read
from the document. -/
theorem submission_id_is_argument (id : Str) (dom : Node) (p : Post)
    (h : parse_submission id dom = .ok p) : p.id = id := by
  unfold parse_submission at h
  repeat' split at h
  all_goals first
    | exact Except.noConfusion h
    | (injection h with h2; subst h2; rfl)

/-- Witness for C9 at a concrete succeeding submission page. -/
theorem submission_id_is_argument_witness :
    parse_submission (str "123") exSubDoc = .ok exSubPost
    ∧ exSubPost.id = str "123" :=
  ⟨rfl, submission_id_is_argument (str "123") exSubDoc exSubPost rfl⟩

/-- C2 (counterexample): a submission page whose header has a story
link, a score and a comment-count anchor but no username link makes the
whole submission fetch abort with the username error — the username
failure does not degrade to the sentinel default as claimed. -/
theorem missing_username_aborts_submission :
    parse_submission (str "123") exDocNoUser
    = .error (ParseError.new (str "Could not find username")) := rfl

/-- C2 (amended): in the submission-page header, username, score and
comment_count are all mandatory — `parse_submission` succeeds only when
each of those extractions succeeded on the header (so any of their
failures aborts the submission fetch; the defaults exist only in the
listing parser). -/
theorem submission_header_all_mandatory (id : Str) (dom : Node) (header : Node)
    (p : Post) (hh : (select dom (byClass (str "fatitem"))).head? = some header)
    (h : parse_submission id dom = .ok p) :
    parse_username header = .ok p.username
    ∧ parse_score header = .ok p.score
    ∧ parse_comment_count header = .ok p.comment_count := by
  unfold parse_submission at h
  simp only [hh] at h
  cases hsl : parse_storylink header with
  | error e => simp only [hsl] at h; exact Except.noConfusion h
  | ok tu =>
    obtain ⟨title, url⟩ := tu
    simp only [hsl] at h
    cases hun : parse_username header with
    | error e => simp only [hun] at h; exact Except.noConfusion h
    | ok username =>
      simp only [hun] at h
      cases hsc : parse_score header with
      | error e => simp only [hsc] at h; exact Except.noConfusion h
      | ok score =>
        simp only [hsc] at h
        cases hcc : parse_comment_count header with
        | error e => simp only [hcc] at h; exact Except.noConfusion h
        | ok comment_count =>
          simp only [hcc] at h
          cases hcm : collectResults parse_comment (commentElems dom) with
          | error e => simp only [hcm] at h; exact Except.noConfusion h
          | ok comments =>
            simp only [hcm] at h
            injection h with h2
            subst h2
            exact ⟨rfl, rfl, rfl⟩

/-- Witness for the amended C2 at a concrete succeeding submission
page. -/
theorem submission_header_all_mandatory_witness :
    parse_username exHeader = .ok (str "alice")
    ∧ parse_score exHeader = .ok 150
    ∧ parse_comment_count exHeader = .ok 3 :=
  submission_header_all_mandatory (str "123") exSubDoc exHeader exSubPost rfl rfl

/-- C4: post-level vote derivation is `upvote.or(downvote)` — when the
upvote extractor finds an action it wins and is an `Upvote`; when it
finds none, the downvote extractor's result (a `Downvote`) is used; when
neither finds anything the vote is `None`. -/
theorem post_vote_derivation (el : Node) :
    post_vote el el = (parse_upvote el).or (parse_downvote el)
    ∧ (∀ v, parse_upvote el = some v →
        post_vote el el = some v ∧ ∃ u, v = VoteAction.Upvote u)
    ∧ (parse_upvote el = none → ∀ v, parse_downvote el = some v →
        post_vote el el = some v ∧ ∃ u, v = VoteAction.Downvote u)
    ∧ (parse_upvote el = none → parse_downvote el = none →
        post_vote el el = none) := by
  refine ⟨rfl, ?_, ?_, ?_⟩
  · intro v hv
    refine ⟨by simp [post_vote, Option.or, hv], ?_⟩
    unfold parse_upvote at hv
    split at hv
    · exact Option.noConfusion hv
    · split at hv
      · exact Option.noConfusion hv
      · injection hv with h2
        exact ⟨_, h2.symm⟩
  · intro hu v hv
    refine ⟨by simp [post_vote, Option.or, hu, hv], ?_⟩
    unfold parse_downvote at hv
    split at hv
    · exact Option.noConfusion hv
    · injection hv with h2
      exact ⟨_, h2.symm⟩
  · intro hu hd
    simp [post_vote, Option.or, hu, hd]

/-- Witness for C4: a scope with both vote anchors derives the upvote, a
scope with only an upvote anchor derives the upvote. -/
theorem post_vote_derivation_witness :
    post_vote exBothVotes exBothVotes
      = some (VoteAction.Upvote (str "vote?id=3&how=up"))
    ∧ post_vote exUpOnly exUpOnly
      = some (VoteAction.Upvote (str "vote?id=4&how=up")) :=
  ⟨((post_vote_derivation exBothVotes).2.1 _ rfl).1,
   ((post_vote_derivation exUpOnly).2.1 _ rfl).1⟩

/-- C3 (counterexample): a scope whose first upvote-marker anchor is
hidden but whose second is visible still yields no upvote action — the
hidden class on the first match suppresses the search entirely, so the
claimed "some visible marker anchor exists" characterization fails. -/
theorem hidden_first_upvote_lost :
    visibleUpvoteAnchor exHiddenFirst = true
    ∧ parse_upvote exHiddenFirst = none :=
  ⟨rfl, rfl⟩

/-- C3 (amended): `parse_upvote` returns an action exactly when the
first anchor whose href contains the upvote marker exists and does not
carry the hidden class; that anchor's href becomes the upvote URL (later
visible matches are never considered). -/
theorem parse_upvote_first_match (el : Node) (v : VoteAction) :
    parse_upvote el = some v ↔
      ∃ a, (selA el).find? upHref = some a
        ∧ noseeClass a = false
        ∧ v = VoteAction.Upvote (a.attrD (str "href") []) := by
  unfold parse_upvote
  cases hf : (selA el).find? upHref with
  | none =>
    simp only [hf]
    constructor
    · intro hv; exact Option.noConfusion hv
    · rintro ⟨a, ha, -, -⟩; exact Option.noConfusion ha
  | some a =>
    simp only [hf]
    by_cases hn : noseeClass a
    · simp only [hn, if_pos]
      constructor
      · intro hv; exact Option.noConfusion hv
      · rintro ⟨a', ha', hn', -⟩
        injection ha' with h2
        subst h2
        rw [hn] at hn'
        exact Bool.noConfusion hn'
    · rw [Bool.not_eq_true] at hn
      simp only [hn, Bool.false_eq_true, if_false]
      constructor
      · intro hv
        injection hv with h2
        exact ⟨a, rfl, hn, h2.symm⟩
      · rintro ⟨a', ha', -, hv⟩
        injection ha' with h2
        subst h2
        rw [hv]

/-- Witness for the amended C3 at a scope with one visible upvote
anchor. -/
theorem parse_upvote_first_match_witness :
    parse_upvote exUpOnly = some (VoteAction.Upvote (str "vote?id=4&how=up")) :=
  (parse_upvote_first_match exUpOnly _).mpr
    ⟨Node.elem (str "a") [(str "href", str "vote?id=4&how=up")] [], rfl, rfl, rfl⟩

/-- If any element of the list fails, `collectResults` fails (Rust's
`collect::<Result<Vec<_>, _>>`). -/
theorem collectResults_err_of_mem (f : α → Except ParseError β) :
    ∀ (l : List α) (x : α), x ∈ l → (f x).isOk = false →
      (collectResults f l).isOk = false := by
  intro l
  induction l with
  | nil => intro x hx; exact absurd hx (List.not_mem_nil x)
  | cons y t ih =>
    intro x hx hfx
    unfold collectResults
    cases hy : f y with
    | error e => rfl
    | ok b =>
      rcases List.mem_cons.mp hx with hxy | hxt
      · subst hxy; rw [hy] at hfx; exact Bool.noConfusion hfx
      · have := ih x hxt hfx
        cases ht : collectResults f t with
        | error e => rfl
        | ok bs => rw [ht] at this; exact Bool.noConfusion this

/-- C5: username, id, depth, age and content are all mandatory for
comment assembly — failure of any one makes `parse_comment` fail — and a
failing comment element makes the whole submission fetch fail. -/
theorem comment_mandatory_fields :
    (∀ el : Node,
      ((parse_username el).isOk = false → (parse_comment el).isOk = false)
      ∧ (Node.attr el (str "id") = none → (parse_comment el).isOk = false)
      ∧ (comment_depth el = none → (parse_comment el).isOk = false)
      ∧ (comment_age el = none → (parse_comment el).isOk = false)
      ∧ (comment_content el = none → (parse_comment el).isOk = false))
    ∧ ∀ (id : Str) (dom : Node) (el : Node), el ∈ commentElems dom →
        (parse_comment el).isOk = false → (parse_submission id dom).isOk = false := by
  constructor
  · intro el
    refine ⟨?_, ?_, ?_, ?_, ?_⟩
    · intro hf
      unfold parse_comment
      cases hu : parse_username el with
      | error e => rfl
      | ok u => rw [hu] at hf; exact Bool.noConfusion hf
    · intro hf
      unfold parse_comment
      cases hu : parse_username el with
      | error e => rfl
      | ok u => simp only [hf]; rfl
    · intro hf
      unfold parse_comment
      cases hu : parse_username el with
      | error e => rfl
      | ok u =>
        cases hi : Node.attr el (str "id") with
        | none => rfl
        | some i => simp only [hf]; rfl
    · intro hf
      unfold parse_comment
      cases hu : parse_username el with
      | error e => rfl
      | ok u =>
        cases hi : Node.attr el (str "id") with
        | none => rfl
        | some i =>
          cases hd : comment_depth el with
          | none => rfl
          | some d => simp only [hf]; rfl
    · intro hf
      unfold parse_comment
      cases hu : parse_username el with
      | error e => rfl
      | ok u =>
        cases hi : Node.attr el (str "id") with
        | none => rfl
        | some i =>
          cases hd : comment_depth el with
          | none => rfl
          | some d =>
            cases ha : comment_age el with
            | none => rfl
            | some a => simp only [hf]; rfl
  · intro id dom el hmem hf
    have hc := collectResults_err_of_mem parse_comment (commentElems dom) el hmem hf
    unfold parse_submission
    cases hh : (select dom (byClass (str "fatitem"))).head? with
    | none => simp only [hh]; rfl
    | some header =>
      simp only [hh]
      cases hsl : parse_storylink header with
      | error e => simp only [hsl]; rfl
      | ok tu =>
        obtain ⟨title, url⟩ := tu
        simp only [hsl]
        cases hun : parse_username header with
        | error e => rfl
        | ok username =>
          simp only [hun]
          cases hsc : parse_score header with
          | error e => rfl
          | ok score =>
            simp only [hsc]
            cases hcc : parse_comment_count header with
            | error e => rfl
            | ok comment_count =>
              simp only [hcc]
              cases hcm : collectResults parse_comment (commentElems dom) with
              | error e => simp only [hcm]; rfl
              | ok comments => rw [hcm] at hc; exact Bool.noConfusion hc

/-- Witness for C5: a comment element missing its username fails, and a
submission page containing it fails as a whole. -/
theorem comment_mandatory_fields_witness :
    (parse_comment exNoUserComment).isOk = false
    ∧ (parse_submission (str "123") exBadCommentDoc).isOk = false := by
  have h1 := (comment_mandatory_fields.1 exNoUserComment).1 rfl
  refine ⟨h1, comment_mandatory_fields.2 (str "123") exBadCommentDoc exNoUserComment ?_ h1⟩
  rw [show commentElems exBadCommentDoc = [exNoUserComment] from rfl]
  exact List.mem_singleton_self exNoUserComment

/-- C6: `parse_comment_count` keeps the last anchor text that ends with
"comments" or equals "discuss"; "discuss" yields 0, otherwise the
non-digit characters are stripped and the rest parsed; no matching
anchor is a missing-field error and unparsable digits are a parse
error. -/
theorem comment_count_cases (el : Node) :
    (commentCountTexts el = [] →
      parse_comment_count el
        = .error (ParseError.new (str "Could not find comment count")))
    ∧ ∀ ts t, commentCountTexts el = ts ++ [t] →
        ((t = str "discuss" → parse_comment_count el = .ok 0)
         ∧ (∀ n, t ≠ str "discuss" → parseU64 (t.filter Char.isDigit) = some n →
             parse_comment_count el = .ok n)
         ∧ (t ≠ str "discuss" → parseU64 (t.filter Char.isDigit) = none →
             parse_comment_count el
               = .error (ParseError.new (str "Could not parse comment count")))) := by
  constructor
  · intro hempty
    unfold parse_comment_count
    rw [hempty]
    rfl
  · intro ts t hlast
    have hl : (commentCountTexts el).getLast? = some t := by
      rw [hlast]; exact List.getLast?_concat ts
    refine ⟨?_, ?_, ?_⟩
    · intro hd
      unfold parse_comment_count
      rw [hl]
      simp only [hd, if_pos]
    · intro n hd hp
      unfold parse_comment_count
      rw [hl]
      simp only [if_neg hd, hp]
    · intro hd hp
      unfold parse_comment_count
      rw [hl]
      simp only [if_neg hd, hp]

/-- Witness for C6: "discuss" yields 0, "42 comments" yields 42, no
matching anchor yields the missing-field error. -/
theorem comment_count_cases_witness :
    parse_comment_count exDiscussRow = .ok 0
    ∧ parse_comment_count exCountRow = .ok 42
    ∧ parse_comment_count exUpOnly
        = .error (ParseError.new (str "Could not find comment count")) :=
  ⟨((comment_count_cases exDiscussRow).2 [] (str "discuss") rfl).1 rfl,
   ((comment_count_cases exCountRow).2 [] (str "42 comments") rfl).2.1 42
     (by decide) rfl,
   (comment_count_cases exUpOnly).1 rfl⟩

/-- C7 (counterexample): a single text node "a  b" passes through
`el_text` with its internal two-space run intact — internal whitespace
runs inside one text node are not collapsed to single spaces. -/
theorem el_text_keeps_inner_runs :
    el_text exInnerWs = str "a  b"
    ∧ containsSub (el_text exInnerWs) (str "  ") = true :=
  ⟨rfl, rfl⟩

/-- The head of a `dropWhile` result does not satisfy the predicate. -/
theorem dropWhile_head_not (p : Char → Bool) :
    ∀ (l : Str) (c : Char) (t : Str), l.dropWhile p = c :: t → p c = false := by
  intro l
  induction l with
  | nil => intro c t h; exact List.noConfusion h
  | cons a l ih =>
    intro c t h
    rw [List.dropWhile_cons] at h
    by_cases hp : p a
    · rw [if_pos hp] at h; exact ih c t h
    · rw [if_neg hp] at h
      injection h with h1 _
      subst h1
      cases hpa : p a with
      | false => rfl
      | true => exact absurd hpa hp

theorem elTextStep_acc (acc t : Str) : elTextStep acc t = acc ++ elTextStep [] t := by
  unfold elTextStep
  by_cases h : trim t = []
  · simp [h]
  · simp [h]

theorem foldl_elTextStep_acc :
    ∀ (segs : List Str) (acc : Str),
      segs.foldl elTextStep acc = acc ++ segs.foldl elTextStep [] := by
  intro segs
  induction segs with
  | nil => intro acc; simp [List.foldl]
  | cons t ts ih =>
    intro acc
    rw [List.foldl_cons, List.foldl_cons, ih (elTextStep acc t),
      ih (elTextStep [] t), elTextStep_acc acc t, List.append_assoc]

theorem foldl_elTextStep_spaceFlat :
    ∀ segs : List Str,
      segs.foldl elTextStep []
        = spaceFlat ((segs.map trim).filter (fun s => decide (s ≠ []))) := by
  intro segs
  induction segs with
  | nil => rfl
  | cons t ts ih =>
    rw [List.foldl_cons, foldl_elTextStep_acc, ih, List.map_cons]
    by_cases h : trim t = []
    · simp [List.filter_cons, h, elTextStep]
    · simp [List.filter_cons, h, elTextStep, spaceFlat]

theorem spaceFlat_interc : ∀ (y : Str) (r : List Str),
    spaceFlat (y :: r) = ' ' :: intercalateSp (y :: r) := by
  intro y r
  induction r generalizing y with
  | nil => simp [spaceFlat, intercalateSp]
  | cons z r ih =>
    rw [show spaceFlat (y :: z :: r) = ' ' :: y ++ spaceFlat (z :: r) from rfl, ih z,
      show intercalateSp (y :: z :: r) = y ++ ' ' :: intercalateSp (z :: r) from rfl]
    simp

theorem trimLeft_cons_of_ws (c : Char) (t : Str) (h : isWsChar c = true) :
    trimLeft (c :: t) = trimLeft t := by
  simp [trimLeft, List.dropWhile_cons, h]

theorem trimLeft_cons_of_not (c : Char) (t : Str) (h : isWsChar c = false) :
    trimLeft (c :: t) = c :: t := by
  simp [trimLeft, List.dropWhile_cons, h]

theorem trimRight_of_rev_head (l : Str) (c : Char) (t : Str)
    (h : l.reverse = c :: t) (hc : isWsChar c = false) : trimRight l = l := by
  unfold trimRight
  rw [h, List.dropWhile_cons, hc]
  simp only [Bool.false_eq_true, if_false, ← h, List.reverse_reverse]

theorem trim_eq_self (l : Str) (c d : Char) (s t : Str)
    (h1 : l = c :: s) (hc : isWsChar c = false)
    (h2 : l.reverse = d :: t) (hd : isWsChar d = false) : trim l = l := by
  unfold trim
  rw [h1, trimLeft_cons_of_not c s hc, ← h1]
  exact trimRight_of_rev_head l d t h2 hd

theorem trim_head_not (t : Str) (c : Char) (s : Str) (hx : trim t = c :: s) :
    isWsChar c = false := by
  have hsuf : (trimLeft t).reverse.dropWhile isWsChar <:+ (trimLeft t).reverse :=
    List.dropWhile_suffix isWsChar
  have hpre : ((trimLeft t).reverse.dropWhile isWsChar).reverse <+: trimLeft t := by
    have h3 := List.reverse_prefix.mpr hsuf
    rwa [List.reverse_reverse] at h3
  have hx2 : ((trimLeft t).reverse.dropWhile isWsChar).reverse = c :: s := hx
  rw [hx2] at hpre
  obtain ⟨r, hr⟩ := hpre
  have h4 : trimLeft t = c :: (s ++ r) := by rw [← hr]; simp
  exact dropWhile_head_not isWsChar t c (s ++ r) h4

theorem trim_rev_head_not (t : Str) (c : Char) (s : Str)
    (hx : (trim t).reverse = c :: s) : isWsChar c = false := by
  have hx2 : (trimLeft t).reverse.dropWhile isWsChar = c :: s := by
    have h3 : (trim t).reverse = (trimLeft t).reverse.dropWhile isWsChar := by
      show (((trimLeft t).reverse.dropWhile isWsChar).reverse).reverse = _
      rw [List.reverse_reverse]
    rwa [h3] at hx
  exact dropWhile_head_not isWsChar (trimLeft t).reverse c s hx2

theorem interc_rev_head :
    ∀ (l : List Str), l ≠ [] →
      (∀ x ∈ l, ∃ c s, x.reverse = c :: s ∧ isWsChar c = false) →
      ∃ c s, (intercalateSp l).reverse = c :: s ∧ isWsChar c = false := by
  intro l
  induction l with
  | nil => intro h; exact absurd rfl h
  | cons x r ih =>
    intro _ hmem
    cases r with
    | nil =>
      obtain ⟨c, s, hcs, hc⟩ := hmem x (List.mem_singleton_self x)
      exact ⟨c, s, by simpa [intercalateSp] using hcs, hc⟩
    | cons y r2 =>
      obtain ⟨c, s, hcs, hc⟩ :=
        ih (by simp) (fun z hz => hmem z (List.mem_cons_of_mem x hz))
      refine ⟨c, s ++ ([' '] ++ x.reverse), ?_, hc⟩
      show (x ++ ' ' :: intercalateSp (y :: r2)).reverse = c :: (s ++ ([' '] ++ x.reverse))
      rw [List.reverse_append, List.reverse_cons, hcs]
      simp [List.append_assoc]

theorem trim_interc (l : List Str)
    (hhead : ∀ x ∈ l, ∃ c s, x = c :: s ∧ isWsChar c = false)
    (hrev : ∀ x ∈ l, ∃ c s, x.reverse = c :: s ∧ isWsChar c = false) :
    trim (spaceFlat l) = intercalateSp l := by
  cases l with
  | nil => rfl
  | cons x r =>
    rw [spaceFlat_interc x r]
    have hws : trim (' ' :: intercalateSp (x :: r)) = trim (intercalateSp (x :: r)) := by
      unfold trim
      rw [trimLeft_cons_of_ws ' ' _ (by decide)]
    rw [hws]
    obtain ⟨c, s, hcs, hc⟩ := hhead x (List.mem_cons_self x r)
    obtain ⟨d, t2, hdt, hd⟩ := interc_rev_head (x :: r) (by simp) hrev
    have hhead2 : ∃ s2, intercalateSp (x :: r) = c :: s2 := by
      cases r with
      | nil => exact ⟨s, by simpa [intercalateSp] using hcs⟩
      | cons y r2 =>
        refine ⟨s ++ ' ' :: intercalateSp (y :: r2), ?_⟩
        rw [show intercalateSp (x :: y :: r2) = x ++ ' ' :: intercalateSp (y :: r2) from rfl,
          hcs]
        simp
    obtain ⟨s2, hs2⟩ := hhead2
    exact trim_eq_self _ c d s2 t2 hs2 hc hdt hd

/-- C7 (amended): `el_text` returns the nonempty trimmed descendant text
segments joined by single spaces — whitespace runs inside a single text
node are preserved, only segment boundaries are normalized. -/
theorem el_text_normalizes (el : Node) :
    el_text el = intercalateSp (trimmedSegs el) := by
  have h1 : el_text el = trim (spaceFlat (trimmedSegs el)) := by
    unfold el_text trimmedSegs
    rw [foldl_elTextStep_spaceFlat]
  rw [h1]
  apply trim_interc
  · intro x hx
    obtain ⟨hmap, hne⟩ := List.mem_filter.mp hx
    obtain ⟨t, _, ht⟩ := List.mem_map.mp hmap
    have hxne : x ≠ [] := by simpa using hne
    cases hxc : x with
    | nil => exact absurd hxc hxne
    | cons c s => exact ⟨c, s, rfl, trim_head_not t c s (by rw [ht, hxc])⟩
  · intro x hx
    obtain ⟨hmap, hne⟩ := List.mem_filter.mp hx
    obtain ⟨t, _, ht⟩ := List.mem_map.mp hmap
    have hxne : x ≠ [] := by simpa using hne
    have hrne : x.reverse ≠ [] := by simpa using hxne
    cases hxc : x.reverse with
    | nil => exact absurd hxc hrne
    | cons d t2 => exact ⟨d, t2, rfl, trim_rev_head_not t d t2 (by rw [ht, hxc])⟩

theorem decDigit_isDigit {d : Nat} (h : d < 10) : Char.isDigit (decDigit d) = true := by
  interval_cases d <;> decide

theorem decDigit_val {d : Nat} (h : d < 10) : (decDigit d).toNat - 48 = d := by
  interval_cases d <;> decide

theorem decDigit_ne_plus {d : Nat} (h : d < 10) : decDigit d ≠ '+' := by
  interval_cases d <;> decide

theorem toDec_head : ∀ n : Nat, ∃ c t, toDec n = c :: t ∧ Char.isDigit c = true := by
  intro n
  induction n using Nat.strong_induction_on with
  | _ n ih =>
    by_cases h : n < 10
    · rw [toDec, dif_pos h]
      exact ⟨decDigit n, [], rfl, decDigit_isDigit h⟩
    · rw [toDec, dif_neg h]
      obtain ⟨c, t, hct, hc⟩ := ih (n / 10) (Nat.div_lt_self (by omega) (by omega))
      rw [hct]
      exact ⟨c, t ++ [decDigit (n % 10)], rfl, hc⟩

theorem toDec_all_digits : ∀ n : Nat, (toDec n).all Char.isDigit = true := by
  intro n
  induction n using Nat.strong_induction_on with
  | _ n ih =>
    by_cases h : n < 10
    · rw [toDec, dif_pos h]
      simp [decDigit_isDigit h]
    · rw [toDec, dif_neg h]
      rw [List.all_append]
      have h1 := ih (n / 10) (Nat.div_lt_self (by omega) (by omega))
      have h2 : n % 10 < 10 := Nat.mod_lt n (by omega)
      simp [h1, decDigit_isDigit h2]

theorem toDec_foldl : ∀ n acc : Nat,
    (toDec n).foldl (fun a c => a * 10 + (c.toNat - 48)) acc
      = acc * 10 ^ (toDec n).length + n := by
  intro n
  induction n using Nat.strong_induction_on with
  | _ n ih =>
    intro acc
    by_cases h : n < 10
    · rw [toDec, dif_pos h]
      simp only [List.foldl_cons, List.foldl_nil, List.length_cons, List.length_nil,
        pow_one, zero_add]
      rw [decDigit_val h]
    · rw [toDec, dif_neg h]
      have hlt : n / 10 < n := Nat.div_lt_self (by omega) (by omega)
      rw [List.foldl_append, List.foldl_cons, List.foldl_nil, ih (n / 10) hlt acc,
        List.length_append, List.length_cons, List.length_nil,
        decDigit_val (Nat.mod_lt n (by omega))]
      calc (acc * 10 ^ (toDec (n / 10)).length + n / 10) * 10 + n % 10
          = acc * (10 ^ (toDec (n / 10)).length * 10) + (10 * (n / 10) + n % 10) := by
            ring
        _ = acc * 10 ^ ((toDec (n / 10)).length + (0 + 1)) + n := by
            rw [Nat.div_add_mod, pow_succ]

theorem parseNatCore_toDec (n : Nat) : parseNatCore (toDec n) = some n := by
  obtain ⟨c, t, hct, hc⟩ := toDec_head n
  have hcp : c ≠ '+' := by
    intro he
    rw [he] at hc
    exact Bool.noConfusion hc
  have hall := toDec_all_digits n
  unfold parseNatCore
  rw [hct]
  simp only [List.head?_cons, Option.some.injEq]
  rw [if_neg hcp]
  rw [if_pos]
  · rw [← hct, toDec_foldl n 0, Nat.zero_mul, Nat.zero_add]
  · exact ⟨List.cons_ne_nil c t, by rw [← hct]; exact hall⟩

theorem parseU32_toDec (n : Nat) (h : n < 4294967296) : parseU32 (toDec n) = some n := by
  unfold parseU32
  rw [parseNatCore_toDec n]
  simp [h]

/-- C10 (counterexample): at k = 107374183 the width 40·k = 4294967320
exceeds `u32::MAX`, so the width fails to parse and the comment's
assembly errors instead of yielding depth k; the same element with width
"40" succeeds with depth 1, showing only the width is at fault. -/
theorem width_overflow_rejected :
    40 * 107374183 = 4294967320
    ∧ comment_depth (widthComment (str "cb") (str "4294967320")) = none
    ∧ (parse_comment (widthComment (str "cb") (str "4294967320"))).isOk = false
    ∧ (parse_comment (widthComment (str "cb") (str "40"))).map Comment.depth
        = .ok 1 := by
  refine ⟨by norm_num, rfl, rfl, rfl⟩

/-- C10 (amended): for every depth k and remainder r ≤ 39 whose width
40·k + r fits in `u32`, the comment depth extractor truncates the width
down to exactly k. -/
theorem depth_is_width_div40 (idS : Str) (k r : Nat) (hr : r ≤ 39)
    (hk : 40 * k + r < 4294967296) :
    comment_depth (widthComment idS (toDec (40 * k + r))) = some k := by
  have h0 : comment_depth (widthComment idS (toDec (40 * k + r)))
      = (parseU32 (toDec (40 * k + r))).map (fun n => n / 40) := rfl
  rw [h0, parseU32_toDec _ hk]
  have hdiv : (40 * k + r) / 40 = k := by
    rw [Nat.mul_add_div (by omega)]
    omega
  simp [hdiv]

/-- Witness for the amended C10 at k = 2, r = 5 (width 85). -/
theorem depth_is_width_div40_witness :
    comment_depth (widthComment (str "cw") (toDec (40 * 2 + 5))) = some 2 :=
  depth_is_width_div40 (str "cw") 2 5 (by norm_num) (by norm_num)
